import Mathlib

/-!
Verification of the statute-document structural parser and cross-reference
resolution engine of the lawvault repository (LawDetailView component and its
Content Store collaborator).  The TypeScript source is shallowly embedded:
strings are Lean `String`s manipulated through their character lists, the
JavaScript regular expressions used by the source are hand-compiled into
executable matching functions with the same backtracking semantics, and the
stateful rendering scan is an explicit fold over the input lines.
-/

namespace LawVault

/-! ## JavaScript character classes and string primitives -/

/-- The ECMAScript WhiteSpace/LineTerminator set used by `\s` and `trim()`. -/
def isJsWhitespaceChar (c : Char) : Bool :=
  c = ' ' || c = '\t' || c = '\n' || c = '\r' || c = '\x0b' || c = '\x0c' ||
  c.toNat = 0xA0 || c.toNat = 0x1680 ||
  (0x2000 ≤ c.toNat && c.toNat ≤ 0x200A) ||
  c.toNat = 0x2028 || c.toNat = 0x2029 || c.toNat = 0x202F || c.toNat = 0x205F ||
  c.toNat = 0x3000 || c.toNat = 0xFEFF

/-- JavaScript `String.prototype.trim` on a character list. -/
def jsTrimList (cs : List Char) : List Char :=
  ((cs.dropWhile isJsWhitespaceChar).reverse.dropWhile isJsWhitespaceChar).reverse

/-- JavaScript `String.prototype.trim`. -/
def jsTrim (s : String) : String := String.mk (jsTrimList s.data)

/-- `listLead pat cs` holds when `cs` starts with `pat`. -/
def listLead : List Char → List Char → Bool
  | [], _ => true
  | _ :: _, [] => false
  | p :: ps, c :: cs => p = c && listLead ps cs

/-- `listIncl hay needle`: `needle` occurs contiguously inside `hay`
(JavaScript `String.prototype.includes`). -/
def listIncl (hay needle : List Char) : Bool :=
  match hay with
  | [] => needle.isEmpty
  | _ :: rest => listLead needle hay || listIncl rest needle

/-- JavaScript `String.prototype.endsWith`. -/
def endsWithStr (t suffixStr : String) : Bool :=
  listLead suffixStr.data.reverse t.data.reverse

/-- JavaScript `paragraph.substring(a, b)` for codepoint positions `a ≤ b`. -/
def strSlice (p : String) (a b : Nat) : String :=
  String.mk ((p.data.drop a).take (b - a))

/-- JavaScript `text.split("\n")` on a character list. -/
def splitLines : List Char → List (List Char)
  | [] => [[]]
  | c :: rest =>
    if c = '\n' then [] :: splitLines rest
    else
      match splitLines rest with
      | [] => [[c]]
      | l :: ls => (c :: l) :: ls

/-- The lines of a text, as in `fullText.split("\n")`. -/
def linesOf (text : String) : List String := (splitLines text.data).map String.mk

/-! ## The citation grammar (`referencePattern`)

The source scans each paragraph with the JavaScript regular expression

`((?:《[^《》]+》)|(?:本法)|(?:(?!依照|根据|…|犯)[一-龥]{2,25}法))?(第[一二三四五六七八九十百]+条(?:之一|之二)?)`

under `matchAll`.  The functions below reproduce its leftmost-match,
ordered-alternation, greedy-with-backtracking semantics. -/

/-- The numerals accepted inside `第…条` by `referencePattern`
and by the header patterns. -/
def chineseNumerals : List Char :=
  ['一', '二', '三', '四', '五', '六', '七', '八', '九', '十', '百']

/-- CJK range `[一-龥]`. -/
def isHan (c : Char) : Bool := 0x4E00 ≤ c.toNat && c.toNat ≤ 0x9FA5

/-- The negative-lookahead lexicon in front of the bare law-name alternative. -/
def exclusionTokens : List String :=
  ["依照", "根据", "违反", "适用", "参照", "按照", "执行", "属于", "计算",
   "触犯", "包括", "包含", "以及", "算", "含", "括", "犯"]

/-- Match `第[一二三四五六七八九十百]+条(?:之一|之二)?` at the head of `cs`,
returning the matched characters and the remainder. -/
def matchArticleRef (cs : List Char) : Option (List Char × List Char) :=
  match cs with
  | '第' :: rest =>
    let run := rest.takeWhile (fun c => chineseNumerals.contains c)
    if run.isEmpty then none
    else
      match rest.drop run.length with
      | '条' :: rest2 =>
        if listLead ['之', '一'] rest2 then
          some ('第' :: run ++ '条' :: ['之', '一'], rest2.drop 2)
        else if listLead ['之', '二'] rest2 then
          some ('第' :: run ++ '条' :: ['之', '二'], rest2.drop 2)
        else
          some ('第' :: run ++ ['条'], rest2)
      | _ => none
  | _ => none

/-- Match the bracket-quoted alternative `《[^《》]+》` at the head of `cs`. -/
def matchBracketName (cs : List Char) : Option (List Char × List Char) :=
  match cs with
  | '《' :: rest =>
    let inner := rest.takeWhile (fun c => !(c = '《' || c = '》'))
    if inner.isEmpty then none
    else
      match rest.drop inner.length with
      | '》' :: rest2 => some ('《' :: inner ++ ['》'], rest2)
      | _ => none
  | _ => none

/-- Greedy match of `[一-龥]{2,25}法` immediately followed by the
article group, trying run length `k` first, then backtracking downwards.
Returns (law group, article group, remainder). -/
def matchHanLawRun : Nat → List Char → Option (List Char × List Char × List Char)
  | 0, _ => none
  | k + 1, cs =>
    if k + 1 < 2 then none
    else
      let run := cs.take (k + 1)
      if run.length = k + 1 && run.all (fun c => isHan c) then
        match cs.drop (k + 1) with
        | '法' :: rest2 =>
          match matchArticleRef rest2 with
          | some (art, rem) => some (run ++ ['法'], art, rem)
          | none => matchHanLawRun k cs
        | _ => matchHanLawRun k cs
      else matchHanLawRun k cs

/-- Attempt `referencePattern` at the current position.  Alternatives are tried
in source order; a law-name alternative only commits if the mandatory
`第…条` group matches directly after it.  Returns
(optional raw law group, article group, total match length). -/
def matchCitationAt (cs : List Char) : Option (Option (List Char) × List Char × Nat) :=
  let withLaw : Option (List Char × List Char) → Option (Option (List Char) × List Char × Nat) :=
    fun o =>
      match o with
      | some (law, rest) =>
        match matchArticleRef rest with
        | some (art, _) => some (some law, art, law.length + art.length)
        | none => none
      | none => none
  match withLaw (matchBracketName cs) with
  | some r => some r
  | none =>
    match withLaw (if listLead ['本', '法'] cs then some (['本', '法'], cs.drop 2) else none) with
    | some r => some r
    | none =>
      let viaRun :=
        if exclusionTokens.any (fun t => listLead t.data cs) then none
        else
          match matchHanLawRun 25 cs with
          | some (law, art, _) => some (some law, art, law.length + art.length)
          | none => none
      match viaRun with
      | some r => some r
      | none =>
        match matchArticleRef cs with
        | some (art, _) => some ((none : Option (List Char)), art, art.length)
        | none => none

/-- One citation match produced by `matchAll`, with its paragraph position. -/
structure CitMatch where
  start : Nat
  rawLaw : Option String
  art : String
  fullLen : Nat
deriving DecidableEq, Repr

/-- The `matchAll` scan: try the pattern at every position, jump past each
match (`lastIndex` advancement).  Fueled by the input length. -/
def scanCitations : Nat → List Char → Nat → List CitMatch
  | 0, _, _ => []
  | _ + 1, [], _ => []
  | fuel + 1, c :: rest, pos =>
    match matchCitationAt (c :: rest) with
    | some (law, art, len) =>
      let stride := max len 1
      { start := pos, rawLaw := law.map String.mk, art := String.mk art, fullLen := len } ::
        scanCitations fuel ((c :: rest).drop stride) (pos + stride)
    | none => scanCitations fuel rest (pos + 1)

/-- All citation matches of a paragraph, in left-to-right order. -/
def matchesOf (p : String) : List CitMatch := scanCitations p.data.length p.data 0

/-! ## Law-name cleaning (`cleanLawName`) -/

/-- The self-reference lexicon, shared by `SELF_REF_REGEX` in `cleanLawName`
and `SELF_REFERENCE_PATTERNS` in `fetchPopoverContent`. -/
def selfReferenceLexicon : List String :=
  ["本法", "本实施条例", "本办法", "本规定", "本条例", "本细则", "本规则",
   "本办法实施细则", "本解释"]

/-- The exact-match test `/^(本法|…|本解释)$/`. -/
def selfReferenceTest (s : String) : Bool := selfReferenceLexicon.contains s

/-- The ordered strong-separator list of `cleanLawName`. -/
def strongSeparators : List String :=
  ["依据", "根据", "按照", "依照", "参照", "违反", "适用", "执行", "实施",
   "履行", "触犯", "属于", "计算", "包括", "包含", "以及"]

/-- The ordered weak-token list stripped from the front in `cleanLawName`. -/
def weakTokens : List String :=
  ["关于", "对于", "与", "和", "及", "向", "对", "为", "是", "在", "的",
   "于", "照", "算", "含", "括", "犯"]

/-- The global scan `cleaned.match(/《([^《》]+)》/g)`: full matched segments,
left to right, advancing one position when the pattern fails to close. -/
def bookTitleScan : Nat → List Char → List (List Char)
  | 0, _ => []
  | _ + 1, [] => []
  | fuel + 1, c :: rest =>
    if c = '《' then
      let inner := rest.takeWhile (fun x => !(x = '《' || x = '》'))
      match rest.drop inner.length with
      | '》' :: rem =>
        if inner.isEmpty then bookTitleScan fuel rest
        else ('《' :: inner ++ ['》']) :: bookTitleScan fuel rem
      | _ => bookTitleScan fuel rest
    else bookTitleScan fuel rest

/-- The segment after the first occurrence of `sep` in `cs`, if any. -/
def afterFirstOcc (sep : List Char) : List Char → Option (List Char)
  | [] => none
  | c :: rest =>
    if listLead sep (c :: rest) then some ((c :: rest).drop sep.length)
    else afterFirstOcc sep rest

/-- JavaScript `s.split(sep).pop()`: the text after the last
(left-to-right, non-overlapping) occurrence of `sep`. -/
def lastSegment : Nat → List Char → List Char → List Char
  | 0, cs, _ => cs
  | fuel + 1, cs, sep =>
    match afterFirstOcc sep cs with
    | some rest => lastSegment fuel rest sep
    | none => cs

/-- The strong-separator loop of `cleanLawName`: for each separator in order,
if present, keep only the trimmed text after its last occurrence
(unless that text is empty, in which case keep the current value). -/
def strongStrip (s : String) : String :=
  strongSeparators.foldl
    (fun cleaned sep =>
      if listIncl cleaned.data sep.data then
        let t := jsTrim (String.mk (lastSegment (cleaned.data.length + 1) cleaned.data sep.data))
        if t = "" then cleaned else t
      else cleaned)
    s

/-- The weak-token loop of `cleanLawName`: repeatedly strip (and trim after)
the first listed token that leads the string, until none matches. -/
def weakStrip : Nat → String → String
  | 0, s => s
  | fuel + 1, s =>
    match weakTokens.find? (fun p => listLead p.data s.data) with
    | some p => weakStrip fuel (jsTrim (String.mk (s.data.drop p.data.length)))
    | none => s

/-- `cleanLawName` from the source: bracket-quoted names keep the last quoted
segment; self-reference lexicon entries become `none` (current document);
otherwise strong separators and weak leading tokens are stripped and the
result is rejected when shorter than 2 or longer than 60 characters. -/
def cleanLawName : Option String → Option String
  | none => none
  | some raw =>
    if raw = "" then none
    else
      let cleaned := jsTrim raw
      match bookTitleScan cleaned.data.length cleaned.data with
      | [] =>
        if selfReferenceTest cleaned then none
        else
          let c1 := strongStrip cleaned
          let c2 := weakStrip (c1.length + 1) c1
          if c2.length < 2 || 60 < c2.length then none
          else some c2
      | books =>
        some (String.mk ((books.getLastD []).filter (fun c => !(c = '《' || c = '》'))))

/-! ## Per-paragraph effective-law-name resolution (`renderParagraphWithReferences`) -/

/-- A gap character accepted by the inheritance test `/^[、，,和及\s]+$/`. -/
def gapAllowedChar (c : Char) : Bool :=
  c = '、' || c = '，' || c = ',' || c = '和' || c = '及' || isJsWhitespaceChar c

/-- The inheritance gap test of the source: the trimmed between-text is
nonempty and consists only of separator/conjunction characters and whitespace. -/
def gapRegexTest (g : String) : Bool :=
  !g.data.isEmpty && g.data.all gapAllowedChar

/-- The `lastContextLawName` update of the source: set to the current cleaned
name when present; reset to `none` when the effective name is also absent;
otherwise kept. -/
def updateCtx (ctx cur eff : Option String) : Option String :=
  if cur.isSome then cur else if eff.isNone then none else ctx

/-- The effective law name of each citation after the first, carrying
`lastContextLawName` and the end position of the previous match. -/
def effGo (p : String) : Option String → Nat → List CitMatch → List (Option String)
  | _, _, [] => []
  | ctx, prevEnd, m :: rest =>
    let cur := cleanLawName m.rawLaw
    let gap := jsTrim (strSlice p prevEnd m.start)
    let eff := if cur.isNone && gapRegexTest gap then ctx else cur
    eff :: effGo p (updateCtx ctx cur eff) (m.start + m.fullLen) rest

/-- The effective law names of all citations of a paragraph, in order
(the first citation never inherits). -/
def resolveEffectives (p : String) : List (Option String) :=
  match matchesOf p with
  | [] => []
  | m :: rest =>
    let cur := cleanLawName m.rawLaw
    cur :: effGo p (updateCtx none cur cur) (m.start + m.fullLen) rest

/-- Modelled from the amended inheritance description: each citation's
effective name is its own cleaned name when present; otherwise it inherits
the previous citation's effective name exactly when the trimmed between-text
is nonempty and consists only of separator/conjunction characters and
whitespace; otherwise it is `none` (current document). -/
def specEffGo (p : String) : Option String → Nat → List CitMatch → List (Option String)
  | _, _, [] => []
  | prevEff, prevEnd, m :: rest =>
    let cur := cleanLawName m.rawLaw
    let gap := jsTrim (strSlice p prevEnd m.start)
    let eff := if cur.isSome then cur else if gapRegexTest gap then prevEff else none
    eff :: specEffGo p eff (m.start + m.fullLen) rest

/-- The effective names per the amended inheritance description. -/
def specResolveEffectives (p : String) : List (Option String) :=
  match matchesOf p with
  | [] => []
  | m :: rest =>
    let eff := cleanLawName m.rawLaw
    eff :: specEffGo p eff (m.start + m.fullLen) rest

/-- Modelled from the claim's words: inheritance happens exactly when the text
strictly between the two matches consists only of the separator/conjunction
characters `、，,和及` and whitespace (with no nonemptiness requirement). -/
def claimGapTest (g : String) : Bool := g.data.all gapAllowedChar

/-- Effective names under the claim's inheritance condition. -/
def claimEffGo (p : String) : Option String → Nat → List CitMatch → List (Option String)
  | _, _, [] => []
  | prevEff, prevEnd, m :: rest =>
    let cur := cleanLawName m.rawLaw
    let gap := strSlice p prevEnd m.start
    let eff := if cur.isSome then cur else if claimGapTest gap then prevEff else none
    eff :: claimEffGo p eff (m.start + m.fullLen) rest

/-- Effective names of a paragraph under the claim's inheritance condition. -/
def claimResolveEffectives (p : String) : List (Option String) :=
  match matchesOf p with
  | [] => []
  | m :: rest =>
    let eff := cleanLawName m.rawLaw
    eff :: claimEffGo p eff (m.start + m.fullLen) rest

/-! ## The click-time current-document test (`isCurrentLaw`) -/

/-- `!effectiveLawName || effectiveLawName === "本法" ||
law.law_name.includes(effectiveLawName)` from the citation anchor `onClick`. -/
def isCurrentLaw (effectiveLawName : Option String) (lawName : String) : Bool :=
  match effectiveLawName with
  | none => true
  | some s => s = "" || s = "本法" || listIncl lawName.data s.data

/-- The claim's current-document condition: effective name empty, in the
self-reference lexicon, or contained in the document title. -/
def claimIsCurrentLaw (effectiveLawName : Option String) (lawName : String) : Bool :=
  match effectiveLawName with
  | none => true
  | some s => s = "" || selfReferenceTest s || listIncl lawName.data s.data

/-! ## Structural segmenter (`renderFormattedText`)

Each nonblank trimmed line is classified in source order:
part, sub-part, chapter, section header; article header; continuation of the
open article; preamble sub-classification while `isPreamble` is still true;
otherwise orphan. -/

/-- Blocks emitted by the renderer, carrying their literal line content. -/
inductive Block where
  | part (text : String)
  | subpart (text : String)
  | chapter (text : String)
  | sectionHdr (text : String)
  | article (id : String) (content : List String)
  | tocTitle (text : String)
  | docMeta (text : String)
  | docTitle (text : String)
  | preamble (text : String)
  | orphan (text : String)
deriving DecidableEq, Repr

/-- The literal line content of a block. -/
def blockLines : Block → List String
  | .part t => [t]
  | .subpart t => [t]
  | .chapter t => [t]
  | .sectionHdr t => [t]
  | .article _ content => content
  | .tocTitle t => [t]
  | .docMeta t => [t]
  | .docTitle t => [t]
  | .preamble t => [t]
  | .orphan t => [t]

/-- Concatenated literal content of a block list. -/
def blocksContent (bs : List Block) : List String := (bs.map blockLines).flatten

/-- `/^\s*(第[一二三四五六七八九十百]+<marker>\s+.*)/.test(trimmedLine)`:
`第`, one or more numerals, the marker, then at least one whitespace char. -/
def headerTest (marker : List Char) (t : String) : Bool :=
  match t.data with
  | '第' :: rest =>
    let run := rest.takeWhile (fun c => chineseNumerals.contains c)
    if run.isEmpty then false
    else
      let after := rest.drop run.length
      if listLead marker after then
        match after.drop marker.length with
        | c :: _ => isJsWhitespaceChar c
        | [] => false
      else false
  | _ => false

/-- `partPattern`. -/
def partPattern (t : String) : Bool := headerTest ['编'] t

/-- `subPartPattern`. -/
def subPartPattern (t : String) : Bool := headerTest ['分', '编'] t

/-- `chapterPattern`. -/
def chapterPattern (t : String) : Bool := headerTest ['章'] t

/-- `sectionPattern`. -/
def sectionPattern (t : String) : Bool := headerTest ['节'] t

/-- The numerals accepted by `articlePattern` (`一…百` plus `千万零`). -/
def chineseNumeralsExt : List Char := chineseNumerals ++ ['千', '万', '零']

/-- `/^\s*(第[一二三四五六七八九十百千万零]+条)(.*)/.exec(trimmedLine)`:
the `第…条` label and the rest of the line. -/
def articleMatch (t : String) : Option (String × String) :=
  match t.data with
  | '第' :: rest =>
    let run := rest.takeWhile (fun c => chineseNumeralsExt.contains c)
    if run.isEmpty then none
    else
      match rest.drop run.length with
      | '条' :: rest2 => some (String.mk ('第' :: run ++ ['条']), String.mk rest2)
      | _ => none
  | _ => none

/-- `/^目\s*录$/.test(trimmedLine)`. -/
def tocTitlePattern (t : String) : Bool :=
  match t.data with
  | '目' :: rest =>
    let ws := rest.takeWhile isJsWhitespaceChar
    rest.drop ws.length = ['录']
  | _ => false

/-- A character matched by `.` in the JavaScript metadata pattern. -/
def dotClass (c : Char) : Bool :=
  !(c = '\n' || c = '\r' || c.toNat = 0x2028 || c.toNat = 0x2029)

/-- `/^[（(].*[）)]$/.test(trimmedLine) || trimmedLine.endsWith("通过")`. -/
def docMetaPattern (t : String) : Bool :=
  (match t.data with
   | c :: rest =>
     match rest with
     | [] => false
     | _ :: _ =>
       (c = '（' || c = '(') &&
       (let lastC := rest.getLastD ' '
        (lastC = '）' || lastC = ')')) &&
       rest.dropLast.all dotClass
   | [] => false)
  || endsWithStr t "通过"

/-- A sentence-ending punctuation mark (`/[，。；]/`). -/
def sentencePunct (c : Char) : Bool := c = '，' || c = '。' || c = '；'

/-- The preamble sub-classification of a nonblank line (applied only while
`isPreamble` is still true and no article is open). -/
def classifyPreambleLine (docName t : String) : Block :=
  if tocTitlePattern t then .tocTitle t
  else if docMetaPattern t then .docMeta t
  else if t = docName || (t.length < 30 && !(t.data.any sentencePunct)) then .docTitle t
  else .preamble t

/-- The mutable scan state of `renderFormattedText`: the open article
(`currentArticleId`/`currentArticleContent`) and the `isPreamble` flag. -/
structure SegState where
  openArticle : Option (String × List String)
  isPreamble : Bool
deriving DecidableEq, Repr

/-- `flushArticle`: emit the buffered article block, if any. -/
def flushArticle (st : SegState) : List Block × SegState :=
  match st.openArticle with
  | some (id, content) => ([.article id content], { st with openArticle := none })
  | none => ([], st)

/-- Process one nonblank trimmed line: the blocks it emits and the new state. -/
def segStep (docName : String) (st : SegState) (t : String) : List Block × SegState :=
  if partPattern t then
    let (bs, st1) := flushArticle st
    (bs ++ [.part t], { st1 with isPreamble := false })
  else if subPartPattern t then
    let (bs, st1) := flushArticle st
    (bs ++ [.subpart t], { st1 with isPreamble := false })
  else if chapterPattern t then
    let (bs, st1) := flushArticle st
    (bs ++ [.chapter t], { st1 with isPreamble := false })
  else if sectionPattern t then
    let (bs, st1) := flushArticle st
    (bs ++ [.sectionHdr t], { st1 with isPreamble := false })
  else
    match articleMatch t with
    | some (label, _) =>
      let (bs, _) := flushArticle st
      (bs, { openArticle := some ("article-" ++ label, [t]), isPreamble := false })
    | none =>
      match st.openArticle with
      | some (id, content) => ([], { st with openArticle := some (id, content ++ [t]) })
      | none =>
        if st.isPreamble then ([classifyPreambleLine docName t], st)
        else ([.orphan t], st)

/-- The per-line scan: trim, skip blank lines, classify the rest. -/
def segGo (docName : String) (st : SegState) : List String → List Block × SegState
  | [] => ([], st)
  | line :: rest =>
    let t := jsTrim line
    if t = "" then segGo docName st rest
    else
      let (bs, st1) := segStep docName st t
      let (bs2, st2) := segGo docName st1 rest
      (bs ++ bs2, st2)

/-- `renderFormattedText`: scan all lines, then flush the trailing article. -/
def segment (docName text : String) : List Block :=
  let (bs, st) := segGo docName { openArticle := none, isPreamble := true } (linesOf text)
  bs ++ (flushArticle st).1

/-- A header-level line (part, sub-part, chapter or section). -/
def isHeaderLine (t : String) : Bool :=
  partPattern t || subPartPattern t || chapterPattern t || sectionPattern t

/-- A block produced by the preamble sub-classification. -/
def isPreambleFamily : Block → Bool
  | .tocTitle _ => true
  | .docMeta _ => true
  | .docTitle _ => true
  | .preamble _ => true
  | _ => false

/-- The literal nonblank input lines of a text (blank meaning trim-empty). -/
def nonblankLines (text : String) : List String :=
  (linesOf text).filter (fun l => jsTrim l ≠ "")

/-- The trimmed forms of the nonblank input lines, in order. -/
def nonblankTrimmedLines (text : String) : List String :=
  ((linesOf text).map jsTrim).filter (fun t => t ≠ "")

/-! ## TOC builder (the TOC-generation `useEffect`) -/

/-- A collected header: `{id, text, level, lineIndex}` with level
1 = part, 1.5 = sub-part, 2 = chapter, 3 = section. -/
structure TocHeader where
  id : String
  text : String
  level : ℚ
  lineIndex : Nat
deriving DecidableEq, Repr

/-- A level actually produced by the header collector. -/
def goodLevel (q : ℚ) : Prop := q = 1 ∨ q = 3 / 2 ∨ q = 2 ∨ q = 3

instance (q : ℚ) : Decidable (goodLevel q) :=
  inferInstanceAs (Decidable (q = 1 ∨ q = 3 / 2 ∨ q = 2 ∨ q = 3))

/-- The backward pruning loop, on the pre-body headers in scan order
(last to first), carrying `currentLevelLimit` (initially 100):
keep a header when its level is below the limit, lower the limit to it,
and break as soon as the limit reaches 1. -/
def pruneScan : List TocHeader → ℚ → List TocHeader
  | [], _ => []
  | h :: rest, limit =>
    if h.level < limit then
      if h.level = 1 then [h]
      else h :: pruneScan rest h.level
    else if limit = 1 then []
    else pruneScan rest limit

/-- The kept pre-body headers, in original order. -/
def prunePreBody (pre : List TocHeader) : List TocHeader :=
  (pruneScan pre.reverse 100).reverse

/-- The TOC: with no first article every header is kept; otherwise the pruned
pre-body headers followed by all post-body headers. -/
def buildToc (headers : List TocHeader) (firstArticleLineIndex : Option Nat) :
    List TocHeader :=
  match firstArticleLineIndex with
  | none => headers
  | some fa =>
    let postBodyHeaders := headers.filter (fun h => fa ≤ h.lineIndex)
    let preBodyHeaders := headers.filter (fun h => h.lineIndex < fa)
    prunePreBody preBodyHeaders ++ postBodyHeaders

/-- Modelled from the spec's words: scan the pre-body headers from last to
first, keep a header exactly when its level is strictly more senior (lower)
than the most senior level kept so far in this backward scan, and stop once a
level-1 header has been kept. -/
def specPruneScan : List TocHeader → Option ℚ → List TocHeader
  | [], _ => []
  | h :: rest, none =>
    if h.level = 1 then [h]
    else h :: specPruneScan rest (some h.level)
  | h :: rest, some m =>
    if h.level < m then
      if h.level = 1 then [h]
      else h :: specPruneScan rest (some h.level)
    else specPruneScan rest (some m)

/-- The TOC per the spec's words: pruned pre-body headers in original order,
followed by all post-body headers (line index at or past the first article)
in original order. -/
def specBuildToc (headers : List TocHeader) (fa : Nat) : List TocHeader :=
  (specPruneScan ((headers.filter (fun h => h.lineIndex < fa)).reverse) none).reverse
    ++ headers.filter (fun h => fa ≤ h.lineIndex)

/-! ## Snippet fetch, cache and tooltip (`fetchPopoverContent`) -/

/-- The tooltip state relevant to snippet application. -/
structure PopoverState where
  visible : Bool
  content : String
deriving DecidableEq, Repr

/-- The per-view snippet state: the cache (`snippetCache.current`) and the
popover. The cache is an association list; earlier entries win on lookup. -/
structure SnippetView where
  snippetCache : List (String × String)
  popoverState : PopoverState
deriving DecidableEq, Repr

/-- `Map.has`/`Map.get` combined. -/
def cacheLookup : List (String × String) → String → Option String
  | [], _ => none
  | (k, v) :: rest, key => if k = key then some v else cacheLookup rest key

/-- `targetLaw` of `fetchPopoverContent`: the passed reference when it is a
nonempty string outside the self-reference lexicon, otherwise `null`. -/
def targetLawOf (lawNameRef : Option String) : Option String :=
  match lawNameRef with
  | some s => if s ≠ "" && !selfReferenceTest s then some s else none
  | none => none

/-- The cache key `` `${targetLaw || "CURRENT"}-${artNum}` ``. -/
def snippetCacheKey (targetLaw : Option String) (artNum : String) : String :=
  (match targetLaw with | some s => s | none => "CURRENT") ++ "-" ++ artNum

/-- `getArticleSnippet` from the Content Store API layer: it resolves the
underlying invocation's failures to the localized failure string and never
rejects.  The raw invocation is a parameter. -/
def getArticleSnippet (invokeSnippet : Option String → String → String → Except String String)
    (lawName : Option String) (articleNumber currentLaw : String) : String :=
  match invokeSnippet lawName articleNumber currentLaw with
  | .ok s => s
  | .error _ => "加载预览失败"

/-- The response-application guard of `fetchPopoverContent`:
`setPopoverState(prev => prev.visible ? {...prev, content} : prev)`. -/
def applySnippetResponse (st : PopoverState) (content : String) : PopoverState :=
  if st.visible then { st with content := content } else st

/-- One resolution of a citation key, run to completion: serve from the cache
when the key is present; otherwise show the interim message, resolve the
snippet, cache it unconditionally, and apply it through the visibility guard.
Also reports whether the Content Store was called. -/
def fetchPopoverContent
    (invokeSnippet : Option String → String → String → Except String String)
    (currentLawName : String) (lawNameRef : Option String) (artNum : String)
    (st : SnippetView) : SnippetView × Bool :=
  let targetLaw := targetLawOf lawNameRef
  let cacheKey := snippetCacheKey targetLaw artNum
  match cacheLookup st.snippetCache cacheKey with
  | some v => ({ st with popoverState := { visible := true, content := v } }, false)
  | none =>
    let interim : PopoverState := { visible := true, content := "正在查找条文..." }
    let content := getArticleSnippet invokeSnippet targetLaw artNum currentLawName
    ({ snippetCache := (cacheKey, content) :: st.snippetCache,
       popoverState := applySnippetResponse interim content }, true)

/-! ## Tooltip sessions and stale responses -/

/-- Tooltip-affecting events: a hover opening a new tooltip session, the
debounced hide firing, and a snippet response arriving for the session that
requested it. -/
inductive PopEvent where
  | hover (sid : Nat)
  | hideTimeout
  | respond (sid : Nat) (content : String)
deriving DecidableEq, Repr

/-- The tooltip state together with the ghost identity of the session that
currently owns it (`none` after a hide). -/
structure TooltipState where
  popoverState : PopoverState
  activeSession : Option Nat
deriving DecidableEq, Repr

/-- Event semantics of the source handlers: a hover shows the loading tooltip
for its session; the hide timeout hides it; a response is applied through the
visibility guard only, regardless of which session requested it. -/
def tooltipStep (st : TooltipState) : PopEvent → TooltipState
  | .hover sid =>
    { popoverState := { visible := true, content := "加载中..." },
      activeSession := some sid }
  | .hideTimeout =>
    { popoverState := { st.popoverState with visible := false },
      activeSession := none }
  | .respond _ content =>
    { st with popoverState := applySnippetResponse st.popoverState content }

/-- Run an event trace from the initial hidden tooltip. -/
def tooltipRun (events : List PopEvent) : TooltipState :=
  events.foldl tooltipStep
    { popoverState := { visible := false, content := "" }, activeSession := none }

/-! ## Search-match navigation (`scrollToMatch`) -/

/-- `scrollToMatch`: with no matches the current index is kept; otherwise an
index past the end wraps to 0 and a negative index wraps to the last match. -/
def scrollToMatch (matchCount : Nat) (index : Int) (currentMatchIndex : Int) : Int :=
  if matchCount = 0 then currentMatchIndex
  else
    let t0 := index
    let t1 := if (matchCount : Int) ≤ index then 0 else t0
    let t2 := if index < 0 then (matchCount : Int) - 1 else t1
    t2

/-- `handleNextMatch`. -/
def handleNextMatch (matchCount : Nat) (cur : Int) : Int :=
  scrollToMatch matchCount (cur + 1) cur

/-- `handlePrevMatch`. -/
def handlePrevMatch (matchCount : Nat) (cur : Int) : Int :=
  scrollToMatch matchCount (cur - 1) cur

/-- The buffered article lines still awaiting a flush. -/
def pendingLines (st : SegState) : List String :=
  match st.openArticle with
  | none => []
  | some (_, content) => content

/-! ## Helper lemmas -/

theorem updateCtx_eq_eff (ctx cur : Option String) (g : Bool) :
    updateCtx ctx cur (if cur.isNone && g then ctx else cur) =
      (if cur.isNone && g then ctx else cur) := by
  cases cur <;> cases g <;> cases ctx <;> simp [updateCtx]

theorem effGo_eq_specEffGo (p : String) :
    ∀ ms ctx prevEnd, effGo p ctx prevEnd ms = specEffGo p ctx prevEnd ms := by
  intro ms
  induction ms with
  | nil => intro ctx prevEnd; rfl
  | cons m rest ih =>
    intro ctx prevEnd
    rw [effGo, specEffGo]
    rcases hcur : cleanLawName m.rawLaw with _ | s
    · rcases hgap : gapRegexTest (jsTrim (strSlice p prevEnd m.start)) with _ | _
      · simp only [hcur, hgap, Option.isNone_none, Option.isSome_none,
          Bool.and_false, if_false, Bool.false_eq_true, updateCtx]
        simp [ih]
      · simp only [hcur, hgap, Option.isNone_none, Option.isSome_none,
          Bool.and_true, if_true, Bool.false_eq_true, if_false]
        have hu := updateCtx_eq_eff ctx none true
        simp only [Option.isNone_none, Bool.and_true, if_true] at hu
        rw [hu, ih]
    · simp only [hcur, Option.isNone_some, Option.isSome_some, Bool.false_and,
        Bool.false_eq_true, if_false, if_true, updateCtx]
      simp [ih]

theorem resolveEffectives_eq_spec (p : String) :
    resolveEffectives p = specResolveEffectives p := by
  rw [resolveEffectives, specResolveEffectives]
  rcases matchesOf p with _ | ⟨m, rest⟩
  · rfl
  · have hu : updateCtx none (cleanLawName m.rawLaw) (cleanLawName m.rawLaw) =
        cleanLawName m.rawLaw := by
      cases cleanLawName m.rawLaw <;> simp [updateCtx]
    simp only [hu, effGo_eq_specEffGo]

/-! ## Claim theorems -/

/-- Claim C1 (evaluation at the failing input): on the paragraph
`根据劳动法第十条` the extractor's only citation has article number `第十条`
but its raw law-name group is `据劳动法` — the negative lookahead of
`referencePattern` forbids a match starting at `根`, so the group starts one
character later — and the cleaning step leaves it unchanged (`据` alone is
neither part of a remaining strong-separator occurrence nor a weak token),
so the cleaned name is `据劳动法`, not `劳动法` as the specification states. -/
theorem cleanLawName_on_genjuInput :
    matchesOf "根据劳动法第十条" =
      [{ start := 1, rawLaw := some "据劳动法", art := "第十条", fullLen := 7 }] ∧
    cleanLawName (some "据劳动法") = some "据劳动法" ∧
    (some "据劳动法" : Option String) ≠ some "劳动法" := by
  refine ⟨by decide, by decide, by decide⟩

/-- Claim C5 (counterexample): in `《民法典》第一条 第二条` the text strictly
between the two citations is a single space — it consists only of whitespace,
so the claim's condition says the second citation inherits `民法典` — yet the
source trims the gap before testing `/^[、，,和及\s]+$/`, the trimmed gap is
empty, the `+` fails, and the second citation resolves to the current
document (`none`). -/
theorem inheritance_whitespace_gap_cex :
    resolveEffectives "《民法典》第一条 第二条" = [some "民法典", none] ∧
    claimResolveEffectives "《民法典》第一条 第二条" =
      [some "民法典", some "民法典"] ∧
    resolveEffectives "《民法典》第一条 第二条" ≠
      claimResolveEffectives "《民法典》第一条 第二条" := by
  refine ⟨by decide, by decide, by decide⟩

/-- Claim C5 (amended): a citation whose cleaning yields null inherits the
previous citation's effective name exactly when the between-text, after
trimming, is nonempty and consists only of the separator/conjunction
characters `、，,和及` and whitespace, and otherwise resolves to the current
document; in `《民法典》第一条、第二条` both citations resolve to `民法典`. -/
theorem inheritance_condition_characterization :
    (∀ p ctx prevEnd ms, effGo p ctx prevEnd ms = specEffGo p ctx prevEnd ms) ∧
    (∀ p, resolveEffectives p = specResolveEffectives p) ∧
    resolveEffectives "《民法典》第一条、第二条" = [some "民法典", some "民法典"] := by
  refine ⟨fun p ctx prevEnd ms => effGo_eq_specEffGo p ms ctx prevEnd,
    resolveEffectives_eq_spec, by decide⟩

/-- Claim C6 (counterexample): the paragraph `《本规定》第五条` yields the
effective law name `本规定`, which is in the self-reference lexicon, yet with
document title `民法典` (which does not contain it) the click-time test
`isCurrentLaw` is false — the citation does not target the current document,
refuting the claimed "iff … matches the self-reference lexicon". -/
theorem selfReference_lexicon_click_cex :
    resolveEffectives "《本规定》第五条" = [some "本规定"] ∧
    selfReferenceTest "本规定" = true ∧
    isCurrentLaw (some "本规定") "民法典" = false ∧
    claimIsCurrentLaw (some "本规定") "民法典" = true := by
  refine ⟨by decide, by decide, by decide, by decide⟩

/-- Claim C6 (amended): a citation targets the current document iff its
effective law name is absent or empty, is exactly the literal `本法`, or is
contained in the current document's title; in particular `本法第三条`
resolves to the current document regardless of the title. -/
theorem isCurrentLaw_characterization :
    (∀ doc, isCurrentLaw none doc = true) ∧
    (∀ s doc, isCurrentLaw (some s) doc = true ↔
      (s = "" ∨ s = "本法" ∨ listIncl doc.data s.data = true)) ∧
    (∀ doc : String, resolveEffectives "本法第三条" = [none] ∧
      isCurrentLaw none doc = true) := by
  refine ⟨fun doc => rfl, fun s doc => ?_, fun doc => ⟨by decide, rfl⟩⟩
  simp only [isCurrentLaw, Bool.or_eq_true, decide_eq_true_eq]
  tauto

/-- Claim C7: resolving the same citation key twice in sequence issues
exactly one Content Store call — the first resolution (on an uncached key)
calls `getArticleSnippet` and stores its result in the snippet cache under
the key, and the second is served from the cache with no further call. -/
theorem snippetCache_single_call
    (invokeSnippet : Option String → String → String → Except String String)
    (currentLawName : String) (lawNameRef : Option String) (artNum : String)
    (st : SnippetView)
    (h : cacheLookup st.snippetCache
      (snippetCacheKey (targetLawOf lawNameRef) artNum) = none) :
    (fetchPopoverContent invokeSnippet currentLawName lawNameRef artNum st).2 = true ∧
    cacheLookup
      (fetchPopoverContent invokeSnippet currentLawName lawNameRef artNum st).1.snippetCache
      (snippetCacheKey (targetLawOf lawNameRef) artNum)
      = some (getArticleSnippet invokeSnippet (targetLawOf lawNameRef) artNum currentLawName) ∧
    (fetchPopoverContent invokeSnippet currentLawName lawNameRef artNum
      (fetchPopoverContent invokeSnippet currentLawName lawNameRef artNum st).1).2 = false ∧
    (fetchPopoverContent invokeSnippet currentLawName lawNameRef artNum
      (fetchPopoverContent invokeSnippet currentLawName lawNameRef artNum st).1).1.popoverState
      = { visible := true,
          content := getArticleSnippet invokeSnippet (targetLawOf lawNameRef) artNum currentLawName } := by
  simp only [fetchPopoverContent, h, applySnippetResponse, cacheLookup, if_pos rfl]
  simp

/-- Claim C7 witness at a concrete store, key and empty cache. -/
theorem snippetCache_single_call_witness :
    cacheLookup (SnippetView.mk [] ⟨false, ""⟩).snippetCache
      (snippetCacheKey (targetLawOf (some "民法典")) "第一条") = none ∧
    (fetchPopoverContent (fun _ _ _ => Except.ok "第一条内容") "劳动法" (some "民法典") "第一条"
      (SnippetView.mk [] ⟨false, ""⟩)).2 = true ∧
    (fetchPopoverContent (fun _ _ _ => Except.ok "第一条内容") "劳动法" (some "民法典") "第一条"
      (fetchPopoverContent (fun _ _ _ => Except.ok "第一条内容") "劳动法" (some "民法典") "第一条"
        (SnippetView.mk [] ⟨false, ""⟩)).1).2 = false := by
  have h : cacheLookup (SnippetView.mk [] ⟨false, ""⟩).snippetCache
      (snippetCacheKey (targetLawOf (some "民法典")) "第一条") = none := by decide
  have hc := snippetCache_single_call (fun _ _ _ => Except.ok "第一条内容")
    "劳动法" (some "民法典") "第一条" (SnippetView.mk [] ⟨false, ""⟩) h
  exact ⟨h, hc.1, hc.2.2.1⟩

/-- Claim C8: with a positive match count, "next" and "previous" wrap
circularly (past the last match to 0, before 0 to the last match) and
otherwise move by one; with 5 matches, five "next" steps from 0 return to 0
and "previous" from 0 gives 4. -/
theorem searchMatch_wraparound (n : Nat) (hn : 0 < n) :
    handleNextMatch n ((n : Int) - 1) = 0 ∧
    handlePrevMatch n 0 = (n : Int) - 1 ∧
    (∀ i : Nat, i + 1 < n → handleNextMatch n i = (i : Int) + 1) ∧
    (∀ i : Nat, 0 < i → i < n → handlePrevMatch n i = (i : Int) - 1) ∧
    ((handleNextMatch 5)^[5] 0 = 0 ∧ handlePrevMatch 5 0 = 4) := by
  refine ⟨?_, ?_, ?_, ?_, by decide, by decide⟩
  · simp only [handleNextMatch, scrollToMatch]
    split_ifs <;> omega
  · simp only [handlePrevMatch, scrollToMatch]
    split_ifs <;> omega
  · intro i hi
    simp only [handleNextMatch, scrollToMatch]
    split_ifs <;> omega
  · intro i hi0 hin
    simp only [handlePrevMatch, scrollToMatch]
    split_ifs <;> omega

/-- Claim C8 witness at 5 matches. -/
theorem searchMatch_wraparound_witness :
    handleNextMatch 5 ((5 : Int) - 1) = 0 ∧ handlePrevMatch 5 0 = (5 : Int) - 1 := by
  have h := searchMatch_wraparound 5 (by decide)
  exact ⟨h.1, h.2.1⟩

/-- Claim C9 (counterexample): in the trace hover(session 1), hover(session 2),
respond(session 1), the response originating from session 1 is superseded by
the new hover, yet because the tooltip is still visible the guard applies it:
the displayed content becomes session 1's snippet while session 2 is the
active session — a stale response is displayed, refuting the claim. -/
theorem stale_response_applied_cex :
    tooltipRun [.hover 1, .hover 2, .respond 1 "旧会话条文"] =
      { popoverState := { visible := true, content := "旧会话条文" },
        activeSession := some 2 } ∧
    (some 2 : Option Nat) ≠ some 1 := by
  refine ⟨by decide, by decide⟩

/-- Claim C9 (amended): a snippet response is applied to the tooltip iff the
tooltip is still visible when it arrives: a response arriving after a hide is
discarded (the state is unchanged), but a response superseded by a new hover
while the tooltip remains visible is still applied. -/
theorem response_guard_visibility_only :
    (∀ st : PopoverState, ∀ c, st.visible = false → applySnippetResponse st c = st) ∧
    (∀ st : PopoverState, ∀ c, st.visible = true →
      applySnippetResponse st c = { visible := true, content := c }) ∧
    (∀ tr sid c, (tooltipRun tr).popoverState.visible = false →
      tooltipRun (tr ++ [.respond sid c]) = tooltipRun tr) := by
  refine ⟨?_, ?_, ?_⟩
  · intro st c h; simp [applySnippetResponse, h]
  · intro st c h; simp [applySnippetResponse, h]
  · intro tr sid c h
    rw [tooltipRun, List.foldl_append, List.foldl_cons, List.foldl_nil]
    rw [tooltipRun] at h ⊢
    simp [tooltipStep, applySnippetResponse, h]

/-- Claim C9 amended witness: a response after a hide leaves the state
unchanged. -/
theorem response_guard_visibility_only_witness :
    tooltipRun ([.hover 1, .hideTimeout] ++ [.respond 1 "条文"]) =
      tooltipRun [.hover 1, .hideTimeout] := by
  exact response_guard_visibility_only.2.2 [.hover 1, .hideTimeout] 1 "条文" (by decide)

/-- Claim C10: `getArticleSnippet` never rejects — a failing invocation
resolves to the localized failure string — and `fetchPopoverContent` caches
every completed lookup's display string under its key, so after a failed
lookup the failure text is cached and a later hover on the same key is served
from the cache with no new Content Store request. -/
theorem failed_snippet_cached
    (invokeSnippet : Option String → String → String → Except String String)
    (currentLawName : String) (lawNameRef : Option String) (artNum : String)
    (st : SnippetView) (e : String)
    (herr : invokeSnippet (targetLawOf lawNameRef) artNum currentLawName = .error e)
    (h : cacheLookup st.snippetCache
      (snippetCacheKey (targetLawOf lawNameRef) artNum) = none) :
    getArticleSnippet invokeSnippet (targetLawOf lawNameRef) artNum currentLawName
      = "加载预览失败" ∧
    cacheLookup
      (fetchPopoverContent invokeSnippet currentLawName lawNameRef artNum st).1.snippetCache
      (snippetCacheKey (targetLawOf lawNameRef) artNum) = some "加载预览失败" ∧
    (fetchPopoverContent invokeSnippet currentLawName lawNameRef artNum
      (fetchPopoverContent invokeSnippet currentLawName lawNameRef artNum st).1).2 = false ∧
    (fetchPopoverContent invokeSnippet currentLawName lawNameRef artNum
      (fetchPopoverContent invokeSnippet currentLawName lawNameRef artNum st).1).1.popoverState
      = { visible := true, content := "加载预览失败" } := by
  have hg : getArticleSnippet invokeSnippet (targetLawOf lawNameRef) artNum currentLawName
      = "加载预览失败" := by
    rw [getArticleSnippet, herr]
  refine ⟨hg, ?_, ?_, ?_⟩ <;>
    simp only [fetchPopoverContent, h, hg, applySnippetResponse, cacheLookup, if_pos rfl] <;>
    simp

/-- Claim C10 witness at a store whose invocation fails. -/
theorem failed_snippet_cached_witness :
    ((fun _ _ _ => Except.error "后端错误") : Option String → String → String →
      Except String String) (targetLawOf (some "民法典")) "第一条" "劳动法"
      = Except.error "后端错误" ∧
    cacheLookup
      (fetchPopoverContent (fun _ _ _ => Except.error "后端错误") "劳动法" (some "民法典")
        "第一条" (SnippetView.mk [] ⟨false, ""⟩)).1.snippetCache
      (snippetCacheKey (targetLawOf (some "民法典")) "第一条") = some "加载预览失败" ∧
    (fetchPopoverContent (fun _ _ _ => Except.error "后端错误") "劳动法" (some "民法典") "第一条"
      (fetchPopoverContent (fun _ _ _ => Except.error "后端错误") "劳动法" (some "民法典") "第一条"
        (SnippetView.mk [] ⟨false, ""⟩)).1).2 = false := by
  have hc := failed_snippet_cached (fun _ _ _ => Except.error "后端错误") "劳动法"
    (some "民法典") "第一条" (SnippetView.mk [] ⟨false, ""⟩) "后端错误" rfl (by decide)
  exact ⟨rfl, hc.2.1, hc.2.2.1⟩

theorem goodLevel_lt_hundred {q : ℚ} (h : goodLevel q) : q < 100 := by
  rcases h with h | h | h | h <;> rw [h] <;> norm_num

theorem goodLevel_one_lt {q : ℚ} (h : goodLevel q) (hne : q ≠ 1) : 1 < q := by
  rcases h with h | h | h | h
  · exact absurd h hne
  · rw [h]; norm_num
  · rw [h]; norm_num
  · rw [h]; norm_num

theorem pruneScan_eq_specPruneScan :
    ∀ (l : List TocHeader) (m : ℚ), (∀ h ∈ l, goodLevel h.level) → 1 < m →
      pruneScan l m = specPruneScan l (some m) := by
  intro l
  induction l with
  | nil => intro m _ _; rfl
  | cons h rest ih =>
    intro m hl hm
    rw [pruneScan, specPruneScan]
    by_cases hlt : h.level < m
    · rw [if_pos hlt, if_pos hlt]
      by_cases h1 : h.level = 1
      · rw [if_pos h1, if_pos h1]
      · rw [if_neg h1, if_neg h1,
          ih h.level (fun x hx => hl x (List.mem_cons_of_mem _ hx))
            (goodLevel_one_lt (hl h (List.mem_cons_self _ _)) h1)]
    · rw [if_neg hlt, if_neg hlt, if_neg (ne_of_gt hm),
        ih m (fun x hx => hl x (List.mem_cons_of_mem _ hx)) hm]

theorem pruneScan_hundred_eq_spec (l : List TocHeader)
    (hl : ∀ h ∈ l, goodLevel h.level) : pruneScan l 100 = specPruneScan l none := by
  cases l with
  | nil => rfl
  | cons h rest =>
    have hg := hl h (List.mem_cons_self _ _)
    have hlt : h.level < 100 := goodLevel_lt_hundred hg
    rw [pruneScan, specPruneScan, if_pos hlt]
    by_cases h1 : h.level = 1
    · rw [if_pos h1, if_pos h1]
    · rw [if_neg h1, if_neg h1,
        pruneScan_eq_specPruneScan rest h.level
          (fun x hx => hl x (List.mem_cons_of_mem _ hx)) (goodLevel_one_lt hg h1)]

/-- Claim C2: for collected headers and the first-article line index, the TOC
builder keeps all post-body headers unconditionally and prunes the pre-body
headers by the described backward scan (keep exactly when strictly more
senior than the most senior level kept so far, stop once a level-1 header is
kept), the final TOC being kept pre-body headers then post-body headers, each
in original order; and for pre-body levels `[3, 2, 1, 2]` exactly the
strictly-decreasing chain ending at the level-1 header is retained. -/
theorem tocBuilder_characterization :
    (∀ (headers : List TocHeader) (fa : Nat), (∀ h ∈ headers, goodLevel h.level) →
      buildToc headers (some fa) = specBuildToc headers fa) ∧
    (∀ h1 h2 h3 h4 : TocHeader, h1.level = 3 → h2.level = 2 → h3.level = 1 →
      h4.level = 2 → prunePreBody [h1, h2, h3, h4] = [h3, h4]) := by
  constructor
  · intro headers fa hl
    rw [buildToc, specBuildToc, prunePreBody]
    have : pruneScan ((headers.filter (fun h => h.lineIndex < fa)).reverse) 100 =
        specPruneScan ((headers.filter (fun h => h.lineIndex < fa)).reverse) none := by
      apply pruneScan_hundred_eq_spec
      intro h hh
      exact hl h (List.mem_filter.mp (List.mem_reverse.mp hh)).1
    rw [this]
  · intro h1 h2 h3 h4 e1 e2 e3 e4
    rw [prunePreBody]
    have hrev : ([h1, h2, h3, h4] : List TocHeader).reverse = [h4, h3, h2, h1] := by
      simp
    rw [hrev, pruneScan, if_pos (by rw [e4]; norm_num), if_neg (by rw [e4]; norm_num),
      pruneScan, if_pos (by rw [e3, e4]; norm_num), if_pos e3]
    simp

/-- Claim C2 witness at a concrete header list with pre-body levels
`[3, 2, 1, 2]` before the first article at line 4. -/
theorem tocBuilder_characterization_witness :
    prunePreBody
      [⟨"section-0", "第一节", 3, 0⟩, ⟨"chapter-1", "第一章", 2, 1⟩,
       ⟨"part-2", "第一编", 1, 2⟩, ⟨"chapter-3", "第二章", 2, 3⟩] =
      [⟨"part-2", "第一编", 1, 2⟩, ⟨"chapter-3", "第二章", 2, 3⟩] ∧
    buildToc
      [⟨"section-0", "第一节", 3, 0⟩, ⟨"chapter-1", "第一章", 2, 1⟩,
       ⟨"part-2", "第一编", 1, 2⟩, ⟨"chapter-3", "第二章", 2, 3⟩] (some 4) =
    specBuildToc
      [⟨"section-0", "第一节", 3, 0⟩, ⟨"chapter-1", "第一章", 2, 1⟩,
       ⟨"part-2", "第一编", 1, 2⟩, ⟨"chapter-3", "第二章", 2, 3⟩] 4 := by
  constructor
  · exact tocBuilder_characterization.2 _ _ _ _ rfl rfl rfl rfl
  · refine tocBuilder_characterization.1 _ 4 ?_
    intro h hh
    simp only [List.mem_cons, List.not_mem_nil, or_false] at hh
    rcases hh with h0 | h0 | h0 | h0 <;> subst h0 <;> norm_num [goodLevel]

theorem blocksContent_append (a b : List Block) :
    blocksContent (a ++ b) = blocksContent a ++ blocksContent b := by
  simp [blocksContent]

theorem flushArticle_content (st : SegState) :
    blocksContent (flushArticle st).1 = pendingLines st ∧
    pendingLines (flushArticle st).2 = [] := by
  rcases st with ⟨_ | ⟨id, content⟩, pre⟩ <;>
    simp [flushArticle, pendingLines, blocksContent, blockLines]

theorem blockLines_part (t : String) : blockLines (Block.part t) = [t] := rfl

theorem blockLines_subpart (t : String) : blockLines (Block.subpart t) = [t] := rfl

theorem blockLines_chapter (t : String) : blockLines (Block.chapter t) = [t] := rfl

theorem blockLines_sectionHdr (t : String) : blockLines (Block.sectionHdr t) = [t] := rfl

theorem blockLines_article (id : String) (c : List String) :
    blockLines (Block.article id c) = c := rfl

theorem blockLines_tocTitle (t : String) : blockLines (Block.tocTitle t) = [t] := rfl

theorem blockLines_docMeta (t : String) : blockLines (Block.docMeta t) = [t] := rfl

theorem blockLines_docTitle (t : String) : blockLines (Block.docTitle t) = [t] := rfl

theorem blockLines_preamble (t : String) : blockLines (Block.preamble t) = [t] := rfl

theorem blockLines_orphan (t : String) : blockLines (Block.orphan t) = [t] := rfl

theorem classifyPreambleLine_lines (d t : String) :
    blockLines (classifyPreambleLine d t) = [t] := by
  rw [classifyPreambleLine]
  split_ifs <;> rfl

theorem segStep_content (d : String) (st : SegState) (t : String) :
    blocksContent (segStep d st t).1 ++ pendingLines (segStep d st t).2 =
      pendingLines st ++ [t] := by
  have hcl : blockLines (classifyPreambleLine d t) = [t] := classifyPreambleLine_lines d t
  rcases st with ⟨oa, pre⟩
  rw [segStep]
  rcases oa with _ | ⟨id, content⟩ <;>
    rcases ham : articleMatch t with _ | ⟨label, rest2⟩ <;>
      split_ifs <;>
        simp [flushArticle, pendingLines, blocksContent, ham, hcl,
          blockLines_part, blockLines_subpart, blockLines_chapter, blockLines_sectionHdr,
          blockLines_article, blockLines_tocTitle, blockLines_docMeta, blockLines_docTitle,
          blockLines_preamble, blockLines_orphan]

theorem segGo_content (d : String) :
    ∀ (lines : List String) (st : SegState),
      blocksContent (segGo d st lines).1 ++ pendingLines (segGo d st lines).2 =
        pendingLines st ++ (lines.map jsTrim).filter (fun t => t ≠ "") := by
  intro lines
  induction lines with
  | nil => intro st; simp [segGo, blocksContent]
  | cons line rest ih =>
    intro st
    by_cases hb : jsTrim line = ""
    · rw [segGo, if_pos hb, ih st]
      simp [hb]
    · rw [segGo, if_neg hb]
      rcases hstep : segStep d st (jsTrim line) with ⟨bs, st1⟩
      dsimp only
      rcases hrec : segGo d st1 rest with ⟨bs2, st2⟩
      dsimp only
      have h1 := segStep_content d st (jsTrim line)
      rw [hstep] at h1
      have h2 := ih st1
      rw [hrec] at h2
      dsimp only at h1 h2
      rw [blocksContent_append, List.append_assoc, h2, ← List.append_assoc, h1,
        List.append_assoc]
      simp [hb]

/-- Claim C3 (counterexample): for the single-line input `" 目录"` the emitted
block stores the trimmed line `目录`, so the concatenated block content is
`["目录"]` while the literal nonblank input lines are `[" 目录"]` — the
segmentation is lossless only up to per-line whitespace trimming, not
literally as claimed. -/
theorem segmentation_literal_lossless_cex :
    blocksContent (segment "某某法" " 目录") = ["目录"] ∧
    nonblankLines " 目录" = [" 目录"] ∧
    blocksContent (segment "某某法" " 目录") ≠ nonblankLines " 目录" := by
  refine ⟨by decide, by decide, by decide⟩

/-- Claim C3 (amended): the segmenter assigns each nonblank input line to
exactly one output block, and concatenating the literal content of every
emitted block (blank lines ignored) reproduces the whitespace-trimmed forms
of all nonblank input lines in original order. -/
theorem segmentation_lossless_up_to_trim (docName text : String) :
    blocksContent (segment docName text) = nonblankTrimmedLines text := by
  rw [segment, nonblankTrimmedLines]
  rcases hrun : segGo docName { openArticle := none, isPreamble := true } (linesOf text)
    with ⟨bs, st⟩
  have h := segGo_content docName (linesOf text) { openArticle := none, isPreamble := true }
  rw [hrun] at h
  simp only [pendingLines, List.nil_append] at h
  rw [blocksContent_append, (flushArticle_content st).1]
  simpa using h

theorem flushArticle_isPreamble (st : SegState) :
    (flushArticle st).2.isPreamble = st.isPreamble := by
  rcases st with ⟨_ | ⟨id, content⟩, pre⟩ <;> rfl

theorem segStep_disables_preamble (d : String) (st : SegState) (t : String)
    (h : isHeaderLine t = true ∨ (articleMatch t).isSome = true) :
    (segStep d st t).2.isPreamble = false := by
  rcases hf : flushArticle st with ⟨bs, st1⟩
  rw [segStep]
  by_cases hp : partPattern t = true
  · rw [if_pos hp, hf]
  · rw [if_neg hp]
    by_cases hsp : subPartPattern t = true
    · rw [if_pos hsp, hf]
    · rw [if_neg hsp]
      by_cases hc : chapterPattern t = true
      · rw [if_pos hc, hf]
      · rw [if_neg hc]
        by_cases hs : sectionPattern t = true
        · rw [if_pos hs, hf]
        · rw [if_neg hs]
          rcases ham : articleMatch t with _ | ⟨label, rest2⟩
          · exfalso
            rcases h with h | h
            · rw [isHeaderLine] at h
              simp [hp, hsp, hc, hs] at h
            · rw [ham] at h
              simp at h
          · rw [hf]

theorem segStep_keeps_not_preamble (d : String) (st : SegState) (t : String)
    (h : st.isPreamble = false) : (segStep d st t).2.isPreamble = false := by
  rcases hf : flushArticle st with ⟨bs, st1⟩
  rw [segStep]
  by_cases hp : partPattern t = true
  · rw [if_pos hp, hf]
  · rw [if_neg hp]
    by_cases hsp : subPartPattern t = true
    · rw [if_pos hsp, hf]
    · rw [if_neg hsp]
      by_cases hc : chapterPattern t = true
      · rw [if_pos hc, hf]
      · rw [if_neg hc]
        by_cases hs : sectionPattern t = true
        · rw [if_pos hs, hf]
        · rw [if_neg hs]
          rcases ham : articleMatch t with _ | ⟨label, rest2⟩
          · rcases hoa : st.openArticle with _ | ⟨id, content⟩
            · dsimp only
              split_ifs <;> exact h
            · dsimp only
              exact h
          · rw [hf]

theorem segGo_keeps_not_preamble (d : String) :
    ∀ (l : List String) (st : SegState), st.isPreamble = false →
      (segGo d st l).2.isPreamble = false := by
  intro l
  induction l with
  | nil => intro st h; exact h
  | cons line rest ih =>
    intro st h
    by_cases hb : jsTrim line = ""
    · rw [segGo, if_pos hb]; exact ih st h
    · rw [segGo, if_neg hb]
      rcases hstep : segStep d st (jsTrim line) with ⟨bs, st1⟩
      dsimp only
      rcases hrec : segGo d st1 rest with ⟨bs2, st2⟩
      dsimp only
      have h1 := segStep_keeps_not_preamble d st (jsTrim line) h
      rw [hstep] at h1
      have h2 := ih st1 h1
      rw [hrec] at h2
      exact h2

theorem segStep_plain_preamble (d t : String)
    (h1 : isHeaderLine t = false) (h2 : articleMatch t = none) :
    segStep d { openArticle := none, isPreamble := true } t =
      ([classifyPreambleLine d t], { openArticle := none, isPreamble := true }) := by
  rw [isHeaderLine] at h1
  simp only [Bool.or_eq_false_iff] at h1
  rw [segStep, if_neg (by simp [h1.1.1.1]), if_neg (by simp [h1.1.1.2]),
    if_neg (by simp [h1.1.2]), if_neg (by simp [h1.2]), h2]
  rfl

theorem segGo_plain_preserves_state (d : String) :
    ∀ (l : List String),
      (∀ u ∈ l, isHeaderLine (jsTrim u) = false ∧ articleMatch (jsTrim u) = none) →
      (segGo d { openArticle := none, isPreamble := true } l).2 =
        { openArticle := none, isPreamble := true } := by
  intro l
  induction l with
  | nil => intro _; rfl
  | cons line rest ih =>
    intro hl
    by_cases hb : jsTrim line = ""
    · rw [segGo, if_pos hb]
      exact ih (fun u hu => hl u (List.mem_cons_of_mem _ hu))
    · rw [segGo, if_neg hb]
      obtain ⟨hh, ha⟩ := hl line (List.mem_cons_self _ _)
      rw [segStep_plain_preamble d (jsTrim line) hh ha]
      dsimp only
      rcases hrec : segGo d { openArticle := none, isPreamble := true } rest with ⟨bs2, st2⟩
      dsimp only
      have h2 := ih (fun u hu => hl u (List.mem_cons_of_mem _ hu))
      rw [hrec] at h2
      exact h2

theorem segStep_orphan (d : String) (st : SegState) (t : String)
    (hpre : st.isPreamble = false) (hoa : st.openArticle = none)
    (h1 : isHeaderLine t = false) (h2 : articleMatch t = none) :
    (segStep d st t).1 = [Block.orphan t] := by
  rw [isHeaderLine] at h1
  simp only [Bool.or_eq_false_iff] at h1
  rw [segStep, if_neg (by simp [h1.1.1.1]), if_neg (by simp [h1.1.1.2]),
    if_neg (by simp [h1.1.2]), if_neg (by simp [h1.2]), h2]
  rw [hoa]
  simp [hpre]

theorem classifyPreambleLine_family (d t : String) :
    isPreambleFamily (classifyPreambleLine d t) = true := by
  rw [classifyPreambleLine]
  split_ifs <;> rfl

/-- Claim C4 (counterexample): in the input `第一章 总则\n说明文字` no line is
an ArticleHeader, and the second line is nonblank, not a header and not a
continuation, so the claim requires it to get a preamble sub-classification —
but a header-level line also permanently clears the `isPreamble` flag in the
source, so the second line is rendered as an orphan. -/
theorem preamble_after_header_cex :
    segment "某某法" "第一章 总则\n说明文字" =
      [Block.chapter "第一章 总则", Block.orphan "说明文字"] ∧
    articleMatch "第一章 总则" = none ∧
    articleMatch "说明文字" = none ∧
    isPreambleFamily (Block.orphan "说明文字") = false := by
  refine ⟨by decide, by decide, by decide, by decide⟩

/-- Claim C4 (amended): the preamble sub-classification applies to every
nonblank line that is not a header line, not an ArticleHeader and not a
continuation of an open article, for as long as no header-level line and no
ArticleHeader has appeared; it is permanently disabled after the first
header-level line or ArticleHeader (after which such lines are orphans). -/
theorem preamble_classification_scope :
    (∀ (d : String) (st : SegState) (t : String),
      isHeaderLine t = true ∨ (articleMatch t).isSome = true →
      (segStep d st t).2.isPreamble = false) ∧
    (∀ (d : String) (l : List String) (st : SegState), st.isPreamble = false →
      (segGo d st l).2.isPreamble = false) ∧
    (∀ (d : String) (l : List String),
      (∀ u ∈ l, isHeaderLine (jsTrim u) = false ∧ articleMatch (jsTrim u) = none) →
      (segGo d { openArticle := none, isPreamble := true } l).2 =
        { openArticle := none, isPreamble := true }) ∧
    (∀ d t : String, isHeaderLine t = false → articleMatch t = none →
      segStep d { openArticle := none, isPreamble := true } t =
        ([classifyPreambleLine d t], { openArticle := none, isPreamble := true }) ∧
      isPreambleFamily (classifyPreambleLine d t) = true) ∧
    (∀ (d : String) (st : SegState) (t : String),
      st.isPreamble = false → st.openArticle = none →
      isHeaderLine t = false → articleMatch t = none →
      (segStep d st t).1 = [Block.orphan t]) := by
  exact ⟨segStep_disables_preamble,
    fun d l st => segGo_keeps_not_preamble d l st,
    segGo_plain_preserves_state,
    fun d t hh ha => ⟨segStep_plain_preamble d t hh ha, classifyPreambleLine_family d t⟩,
    segStep_orphan⟩

/-- Claim C4 amended witness: while the state is still pristine a plain line
is preamble-classified, and once `isPreamble` is false it becomes an orphan. -/
theorem preamble_classification_scope_witness :
    segStep "某某法" { openArticle := none, isPreamble := true } "说明文字" =
      ([classifyPreambleLine "某某法" "说明文字"],
        { openArticle := none, isPreamble := true }) ∧
    (segStep "某某法" { openArticle := none, isPreamble := false } "说明文字").1 =
      [Block.orphan "说明文字"] := by
  exact ⟨(preamble_classification_scope.2.2.2.1 "某某法" "说明文字"
      (by decide) (by decide)).1,
    preamble_classification_scope.2.2.2.2 "某某法"
      { openArticle := none, isPreamble := false } "说明文字" rfl rfl
      (by decide) (by decide)⟩

end LawVault
